import Mathlib

/-!
Verification of the subscription-revenue calculator's core
(`src/subscription-calculator/src/App.js`): schema validation, row
normalization, the filter engine, the aggregation engine with safe
division, and the export/import round trip.  JavaScript numbers are
embedded as `ℤ` (the `parseInt` fields) and `ℚ` (the `parseFloat`
fields); JS `Date` values are embedded as `Option CalDate` where `none`
is the invalid-date sentinel (comparisons against it are false, as in
JS, where they evaluate to `NaN` comparisons).
-/

namespace SubCalc

/-! ## Character and digit primitives -/

/-- Numeric value of a digit character. -/
def digitVal (c : Char) : ℕ := c.toNat - 48

/-- The digit character for `m` (defined for `m < 10`; other inputs map
to a digit anyway so the function is total). -/
def digitChar (m : ℕ) : Char :=
  match m with
  | 0 => '0' | 1 => '1' | 2 => '2' | 3 => '3' | 4 => '4'
  | 5 => '5' | 6 => '6' | 7 => '7' | 8 => '8' | _ => '9'

/-- Fold a digit list onto an accumulator, most significant first:
`valD a [c1, c2] = (a * 10 + c1) * 10 + c2`. -/
def valD (a : ℕ) (ds : List Char) : ℕ :=
  ds.foldl (fun x c => 10 * x + digitVal c) a

/-- Value of a digit string, models how a decimal numeral is read. -/
def digitsToNat (ds : List Char) : ℕ := valD 0 ds

/-! ## Models of the JavaScript numeric parsers

`parseInt(s, 10)` and `parseFloat(s)` as used at
`App.js:101-107`: skip leading whitespace, read an optional sign and the
longest numeric prefix; no digits at all gives `NaN`, embedded here as
`none`. -/

/-- Strip one leading sign character, returning the sign as `±1`. -/
def stripSign (cs : List Char) : ℤ × List Char :=
  match cs with
  | [] => (1, [])
  | c :: r => if c = '-' then (-1, r) else if c = '+' then (1, r) else (1, c :: r)

/-- Model of JavaScript `parseInt(s, 10)` (`App.js:101`): `none` is `NaN`. -/
def jsParseInt (s : String) : Option ℤ :=
  let sc := stripSign (s.data.dropWhile Char.isWhitespace)
  let ds := sc.2.takeWhile Char.isDigit
  if ds.isEmpty then none else some (sc.1 * (digitsToNat ds : ℤ))

/-- Split a fractional part: a leading point followed by digits. -/
def fracSplit (cs : List Char) : List Char × List Char :=
  match cs with
  | [] => ([], [])
  | c :: r =>
    if c = '.' then (r.takeWhile Char.isDigit, r.dropWhile Char.isDigit)
    else ([], c :: r)

/-- Value of an optionally signed digit prefix (for exponents); an empty
digit sequence reads as `0`, matching `parseFloat` ignoring an
incomplete exponent. -/
def signedDigits (cs : List Char) : ℤ :=
  match cs with
  | [] => 0
  | c :: r =>
    if c = '-' then -(digitsToNat (r.takeWhile Char.isDigit) : ℤ)
    else if c = '+' then (digitsToNat (r.takeWhile Char.isDigit) : ℤ)
    else (digitsToNat ((c :: r).takeWhile Char.isDigit) : ℤ)

/-- Read an exponent marker `e`/`E` and its signed digits. -/
def expSplit (cs : List Char) : ℤ :=
  match cs with
  | [] => 0
  | c :: r => if c = 'e' ∨ c = 'E' then signedDigits r else 0

/-- Scale by a signed power of ten. -/
def applyExp (q : ℚ) (e : ℤ) : ℚ :=
  if 0 ≤ e then q * 10 ^ e.toNat else q / 10 ^ (-e).toNat

/-- The unsigned body of `parseFloat`: integer digits, an optional
fraction, an optional exponent; `none` when no digit was read. -/
def jsParseFloatCore (cs : List Char) : Option ℚ :=
  let ip := cs.takeWhile Char.isDigit
  let fr := fracSplit (cs.dropWhile Char.isDigit)
  if ip.isEmpty ∧ fr.1.isEmpty then none
  else
    some (applyExp
      ((digitsToNat ip : ℚ) + (digitsToNat fr.1 : ℚ) / 10 ^ fr.1.length)
      (expSplit fr.2))

/-- Model of JavaScript `parseFloat(s)` (`App.js:102`): `none` is `NaN`. -/
def jsParseFloat (s : String) : Option ℚ :=
  let sc := stripSign (s.data.dropWhile Char.isWhitespace)
  (jsParseFloatCore sc.2).map (fun q => (sc.1 : ℚ) * q)

/-- Model of `x || 0` applied to a parse result: `NaN` (here `none`)
becomes `0`; a parsed `0` stays `0`. -/
def jsNum (o : Option ℚ) : ℚ := o.getD 0

/-- Model of `x || 0` on an integer parse result. -/
def jsInt (o : Option ℤ) : ℤ := o.getD 0

/-! ## Calendar dates -/

/-- A calendar date at day granularity. -/
structure CalDate where
  y : ℕ
  m : ℕ
  d : ℕ
deriving DecidableEq

/-- Chronological (lexicographic) order on calendar dates. -/
def CalDate.le (a b : CalDate) : Bool :=
  Nat.blt a.y b.y ||
    (a.y == b.y && (Nat.blt a.m b.m || (a.m == b.m && Nat.ble a.d b.d)))

/-- The ten-character ISO `YYYY-MM-DD` reader behind the date model. -/
def parseDateList : List Char → Option CalDate
  | [y1, y2, y3, y4, h1, m1, m2, h2, d1, d2] =>
    if h1 = '-' ∧ h2 = '-' ∧ y1.isDigit ∧ y2.isDigit ∧ y3.isDigit ∧ y4.isDigit
        ∧ m1.isDigit ∧ m2.isDigit ∧ d1.isDigit ∧ d2.isDigit then
      if 1 ≤ digitsToNat [m1, m2] ∧ digitsToNat [m1, m2] ≤ 12
          ∧ 1 ≤ digitsToNat [d1, d2] ∧ digitsToNat [d1, d2] ≤ 31 then
        some ⟨digitsToNat [y1, y2, y3, y4], digitsToNat [m1, m2], digitsToNat [d1, d2]⟩
      else none
    else none
  | _ => none

/-- Modelled from the spec: `new Date(string)` (`App.js:108-109`) is a
JavaScript builtin whose code is not in the repository; §4.2 of the spec
says date cells "parse as calendar date; unparsable input produces an
invalid date sentinel".  The model accepts the ISO `YYYY-MM-DD` form and
returns the invalid sentinel `none` for everything else. -/
def jsParseDate (s : String) : Option CalDate :=
  parseDateList s.data

/-- JS `itemDate >= from` where `itemDate` may be the invalid sentinel:
a comparison against an invalid date is false. -/
def dateGeB (a : Option CalDate) (b : CalDate) : Bool :=
  match a with
  | some x => CalDate.le b x
  | none => false

/-- JS `itemDate <= to` where `itemDate` may be the invalid sentinel. -/
def dateLeB (a : Option CalDate) (b : CalDate) : Bool :=
  match a with
  | some x => CalDate.le x b
  | none => false

/-! ## Data model -/

/-- A raw CSV row: column name to cell string, as PapaParse delivers it. -/
abbrev RawRow := List (String × String)

/-- Reading a property of a raw row.  A missing key yields JS
`undefined`, which `parseInt`/`parseFloat`/`new Date` coerce to the
string `"undefined"` (and hence to `NaN` / an invalid date). -/
def rowGet (row : RawRow) (k : String) : String :=
  match row.lookup k with
  | some v => v
  | none => "undefined"

/-- The normalized record built at `App.js:96-114`.  Passthrough columns
other than `Ad Group` are irrelevant to every claim and are omitted. -/
structure CampaignRecord where
  id : ℕ
  clicks : ℤ
  cost : ℚ
  avgCpc : ℚ
  installs : ℤ
  trials : ℤ
  subscriptions : ℤ
  subscriptionValue : ℚ
  startDate : Option CalDate
  endDate : Option CalDate
  adGroup : Option String
deriving DecidableEq

/-- One row of the `data.map` at `App.js:96-110`. -/
def normalizeRow (i : ℕ) (row : RawRow) : CampaignRecord :=
  { id := i
    clicks := jsInt (jsParseInt (rowGet row "Clicks"))
    cost := jsNum (jsParseFloat (rowGet row "Cost"))
    avgCpc := jsNum (jsParseFloat (rowGet row "Avg. CPC"))
    installs := jsInt (jsParseInt (rowGet row "Installs"))
    trials := jsInt (jsParseInt (rowGet row "Trials"))
    subscriptions := jsInt (jsParseInt (rowGet row "Subscriptions"))
    subscriptionValue := jsNum (jsParseFloat (rowGet row "Subscription Value"))
    startDate := jsParseDate (rowGet row "Start Date")
    endDate := jsParseDate (rowGet row "End Date")
    adGroup := row.lookup "Ad Group" }

/-- Normalization of a whole batch starting at index `start`. -/
def normalizeAll (start : ℕ) : List RawRow → List CampaignRecord
  | [] => []
  | row :: rest => normalizeRow start row :: normalizeAll (start + 1) rest

/-- The body of the `try` at `App.js:97-113`.  Every operation it
performs (`parseInt`, `parseFloat`, `new Date`, property reads) is total
in JavaScript, so the model always succeeds; the `catch` branch is kept
in `processAll` to mirror the source's error propagation. -/
def processRow (i : ℕ) (row : RawRow) : Except String CampaignRecord :=
  Except.ok (normalizeRow i row)

/-- The `data.map` of `App.js:96-114` with the per-row exception
propagation of the surrounding `try`/`catch`. -/
def processAll (start : ℕ) : List RawRow → Except String (List CampaignRecord)
  | [] => Except.ok []
  | row :: rest =>
    match processRow start row, processAll (start + 1) rest with
    | Except.ok r, Except.ok rs => Except.ok (r :: rs)
    | Except.error e, _ => Except.error e
    | Except.ok _, Except.error e => Except.error e

/-- `processedData` of `App.js:96-114`. -/
def processedData (rows : List RawRow) : Except String (List CampaignRecord) :=
  processAll 0 rows

/-! ## Schema validation (`onDrop`, `App.js:87-94`) -/

/-- `REQUIRED_COLUMNS` of `App.js:13`. -/
def REQUIRED_COLUMNS : List String :=
  ["Clicks", "Cost", "Avg. CPC", "Installs", "Trials", "Subscriptions",
   "Subscription Value", "Start Date", "End Date", "Ad Group"]

/-- `App.js:88`: the required columns absent from the header list, in
required-set order. -/
def missingColumns (headers : List String) : List String :=
  REQUIRED_COLUMNS.filter (fun col => !(headers.contains col))

/-- The load-level error outcomes of `onDrop`. -/
inductive LoadError where
  | schemaError (missing : List String)
  | rowError (msg : String)
deriving DecidableEq

/-- The load pipeline of `App.js:87-116`: header validation, then batch
normalization; a missing column rejects the load before any row is
processed. -/
def loadData (headers : List String) (rows : List RawRow) :
    Except LoadError (List CampaignRecord) :=
  if 0 < (missingColumns headers).length then
    Except.error (LoadError.schemaError (missingColumns headers))
  else
    match processedData rows with
    | Except.ok recs => Except.ok recs
    | Except.error m => Except.error (LoadError.rowError m)

/-! ## Filter engine (`filteredData`, `App.js:244-251`) -/

/-- The user-selected date range; `none` is an unset endpoint. -/
structure DateRange where
  dFrom : Option CalDate
  dTo : Option CalDate
deriving DecidableEq

/-- The filter state of `App.js:239-242`. -/
structure FilterState where
  dateRange : DateRange
  adGroup : String
deriving DecidableEq

/-- `App.js:247`: `!from || (itemDate >= from && (!to || itemDate <= to))`. -/
def inDateRange (item : Option CalDate) (r : DateRange) : Bool :=
  match r.dFrom with
  | none => true
  | some f =>
    dateGeB item f &&
      (match r.dTo with
       | none => true
       | some t => dateLeB item t)

/-- The record predicate of `App.js:245-249`. -/
def recPasses (f : FilterState) (item : CampaignRecord) : Bool :=
  inDateRange item.startDate f.dateRange &&
    (f.adGroup == "All Ad Groups" ||
      (match item.adGroup with
       | some g => g == f.adGroup
       | none => false))

/-- `filteredData` of `App.js:244-251`. -/
def filteredData (data : List CampaignRecord) (f : FilterState) :
    List CampaignRecord :=
  data.filter (recPasses f)

/-- The default filter state of `App.js:239-242`. -/
def identityFilter : FilterState :=
  { dateRange := { dFrom := none, dTo := none }, adGroup := "All Ad Groups" }

/-! ## Aggregation engine (`summary`, `App.js:253-277`) -/

/-- `safeDivide` of `App.js:20`: `denominator ? numerator / denominator : 0`.
For the embedded rationals the falsy denominators are exactly `0`. -/
def safeDivide (numerator denominator : ℚ) : ℚ :=
  if denominator = 0 then 0 else numerator / denominator

/-- The accumulator of the reduce at `App.js:254-263`; the source keys
its revenue total under `'Subscription Value'`. -/
structure Totals where
  clicks : ℤ
  cost : ℚ
  installs : ℤ
  trials : ℤ
  subscriptions : ℤ
  revenue : ℚ
deriving DecidableEq

/-- The initial accumulator of `App.js:254`. -/
def initialTotals : Totals :=
  { clicks := 0, cost := 0, installs := 0, trials := 0,
    subscriptions := 0, revenue := 0 }

/-- One step of the reduce at `App.js:255-263`; note the revenue line
`acc['Subscription Value'] += row.Subscriptions * row['Subscription Value']`. -/
def addRow (acc : Totals) (row : CampaignRecord) : Totals :=
  { clicks := acc.clicks + row.clicks
    cost := acc.cost + row.cost
    installs := acc.installs + row.installs
    trials := acc.trials + row.trials
    subscriptions := acc.subscriptions + row.subscriptions
    revenue := acc.revenue + (row.subscriptions : ℚ) * row.subscriptionValue }

/-- The totals of `App.js:255-263`. -/
def computeTotals (rows : List CampaignRecord) : Totals :=
  rows.foldl addRow initialTotals

/-- The summary object of `App.js:265-276`. -/
structure Summary where
  totals : Totals
  cpi : ℚ
  installRate : ℚ
  installToTrialRate : ℚ
  trialCost : ℚ
  installToPaidRate : ℚ
  cac : ℚ
  valueCostRatio : ℚ
  overallConversion : ℚ
  roi : ℚ
deriving DecidableEq

/-- `summary` of `App.js:253-277`. -/
def summaryOf (rows : List CampaignRecord) : Summary :=
  let totals := computeTotals rows
  { totals := totals
    cpi := safeDivide totals.cost (totals.installs : ℚ)
    installRate := safeDivide (totals.installs : ℚ) (totals.clicks : ℚ)
    installToTrialRate := safeDivide (totals.trials : ℚ) (totals.installs : ℚ)
    trialCost := safeDivide totals.cost (totals.trials : ℚ)
    installToPaidRate := safeDivide (totals.subscriptions : ℚ) (totals.installs : ℚ)
    cac := safeDivide totals.cost (totals.subscriptions : ℚ)
    valueCostRatio := safeDivide totals.revenue totals.cost
    overallConversion := safeDivide (totals.subscriptions : ℚ) (totals.clicks : ℚ)
    roi := safeDivide (totals.revenue - totals.cost) totals.cost }

/-! ## Export serializer

Modelled from the spec: `exportData` (`App.js:284-299`) serializes the
filtered records with `Papa.unparse`, an external CSV codec that is not
part of the repository; §4.6 of the spec requires CSV text whose
numeric/date formatting re-imports through the same pipeline to
equivalent records.  Numbers are printed in plain decimal notation and
valid dates in the ISO `YYYY-MM-DD` form; the invalid-date sentinel
prints as JavaScript's `"Invalid Date"`. -/

/-- Decimal digits of `n`, most significant first, prepended to `acc`;
`fuel ≥ n` makes the fuel irrelevant. -/
def natDigitsF : ℕ → ℕ → List Char → List Char
  | 0, _, acc => acc
  | fuel + 1, n, acc =>
    if n = 0 then acc else natDigitsF fuel (n / 10) (digitChar (n % 10) :: acc)

/-- Decimal numeral of `n`. -/
def natStr (n : ℕ) : List Char :=
  if n = 0 then ['0'] else natDigitsF n n []

/-- Exactly `k` decimal digits: the base-10 representation of
`n % 10 ^ k`, zero-padded to width `k`. -/
def padDigits : ℕ → ℕ → List Char
  | 0, _ => []
  | k + 1, n => padDigits k (n / 10) ++ [digitChar (n % 10)]

/-- The least `k ≤ q.den` with `q * 10 ^ k` integral, when one exists
(it does exactly when `q` has a finite decimal expansion). -/
def decExpSearch (q : ℚ) : Option ℕ :=
  (List.range (q.den + 1)).find? (fun k => (q * 10 ^ k).den == 1)

/-- Digits of `|n| / 10 ^ k`: integer part, then a point and `k`
fraction digits when `k ≠ 0`. -/
def ratCore (n : ℤ) (k : ℕ) : List Char :=
  if k = 0 then natStr n.natAbs
  else natStr (n.natAbs / 10 ^ k) ++ '.' :: padDigits k (n.natAbs % 10 ^ k)

/-- Plain decimal rendering of a rational with a finite decimal
expansion (the only rationals the pipeline produces); the fallback
arm is never reached on such inputs. -/
def ratToString (q : ℚ) : String :=
  match decExpSearch q with
  | none => "0"
  | some k =>
    let n := (q * 10 ^ k).num
    ⟨if n < 0 then '-' :: ratCore n k else ratCore n k⟩

/-- Decimal rendering of an integer field. -/
def intToString (i : ℤ) : String :=
  ⟨if i < 0 then '-' :: natStr i.natAbs else natStr i.natAbs⟩

/-- ISO rendering of a date; the invalid sentinel prints as JS does. -/
def dateToString : Option CalDate → String
  | none => "Invalid Date"
  | some dt =>
    ⟨padDigits 4 dt.y ++ '-' :: padDigits 2 dt.m ++ '-' :: padDigits 2 dt.d⟩

/-- One exported CSV row for a normalized record. -/
def serializeRecord (r : CampaignRecord) : RawRow :=
  [("Clicks", intToString r.clicks),
   ("Cost", ratToString r.cost),
   ("Avg. CPC", ratToString r.avgCpc),
   ("Installs", intToString r.installs),
   ("Trials", intToString r.trials),
   ("Subscriptions", intToString r.subscriptions),
   ("Subscription Value", ratToString r.subscriptionValue),
   ("Start Date", dateToString r.startDate),
   ("End Date", dateToString r.endDate),
   ("Ad Group", (r.adGroup).getD "")]

/-- The equivalence §4.6 requires after a round trip: numerically equal
numeric fields and dates equal at day granularity. -/
def recEquiv (a b : CampaignRecord) : Prop :=
  a.clicks = b.clicks ∧ a.cost = b.cost ∧ a.avgCpc = b.avgCpc ∧
  a.installs = b.installs ∧ a.trials = b.trials ∧
  a.subscriptions = b.subscriptions ∧
  a.subscriptionValue = b.subscriptionValue ∧
  a.startDate = b.startDate ∧ a.endDate = b.endDate

/-- Rationals with a finite decimal expansion; every value the float
parser produces is one. -/
def IsDec (q : ℚ) : Prop := ∃ (n : ℤ) (k : ℕ), q = (n : ℚ) / 10 ^ k

/-- The dates the date parser can produce. -/
def ValidDate (dt : CalDate) : Prop :=
  dt.y < 10000 ∧ 1 ≤ dt.m ∧ dt.m ≤ 12 ∧ 1 ≤ dt.d ∧ dt.d ≤ 31

/-- A date field is either the invalid sentinel or a parseable date. -/
def DateOK : Option CalDate → Prop
  | none => True
  | some dt => ValidDate dt

/-- The invariant every normalized record satisfies, and all a record
needs for its serialization to re-import equivalently. -/
def FieldOK (r : CampaignRecord) : Prop :=
  IsDec r.cost ∧ IsDec r.avgCpc ∧ IsDec r.subscriptionValue ∧
  DateOK r.startDate ∧ DateOK r.endDate

/-! ## The spec's filter predicate (§4.3), written from its words -/

/-- The spec's date-inclusion predicate: true if `from` is unset, or the
record's start date is at least `from` and (`to` is unset or the start
date is at most `to`); only `startDate` is consulted. -/
def specDatePass (r : CampaignRecord) (dr : DateRange) : Bool :=
  match dr.dFrom with
  | none => true
  | some fd =>
    dateGeB r.startDate fd &&
      (match dr.dTo with
       | none => true
       | some td => dateLeB r.startDate td)

/-- The spec's per-record predicate: date inclusion AND ad-group
inclusion (`adGroup` sentinel `"All Ad Groups"` means no category
filter). -/
def specPass (f : FilterState) (r : CampaignRecord) : Bool :=
  specDatePass r f.dateRange &&
    (f.adGroup == "All Ad Groups" || r.adGroup == some f.adGroup)

/-! ## Helper lemmas: digits and numerals -/

/-- A digit-character list. -/
def AllDigits (ds : List Char) : Prop := ∀ c ∈ ds, c.isDigit = true

theorem isDigit_toNat (c : Char) (h : c.isDigit = true) :
    48 ≤ c.toNat ∧ c.toNat ≤ 57 := by
  simp [Char.isDigit, Char.le_def] at h
  exact ⟨h.1, h.2⟩

theorem digitVal_lt (c : Char) (h : c.isDigit = true) : digitVal c < 10 := by
  obtain ⟨h1, h2⟩ := isDigit_toNat c h
  unfold digitVal
  omega

theorem digitChar_isDigit (m : ℕ) : (digitChar m).isDigit = true := by
  unfold digitChar
  rcases m with _ | _ | _ | _ | _ | _ | _ | _ | _ | m <;> rfl

theorem digitVal_digitChar (m : ℕ) (h : m < 10) : digitVal (digitChar m) = m := by
  unfold digitChar
  rcases m with _ | _ | _ | _ | _ | _ | _ | _ | _ | m
  · rfl
  · rfl
  · rfl
  · rfl
  · rfl
  · rfl
  · rfl
  · rfl
  · rfl
  · have hm : m = 0 := by omega
    subst hm
    rfl

theorem digit_char_facts (c : Char) (h : c.isDigit = true) :
    c.isWhitespace = false ∧ c ≠ '-' ∧ c ≠ '+' ∧ c ≠ '.' ∧ c ≠ 'e' ∧ c ≠ 'E' := by
  obtain ⟨h1, h2⟩ := isDigit_toNat c h
  refine ⟨?_, ?_, ?_, ?_, ?_, ?_⟩
  · cases hw : c.isWhitespace
    · rfl
    · exfalso
      simp [Char.isWhitespace] at hw
      obtain ((hw | hw) | hw) | hw := hw <;> subst hw <;> simp at h1 h2
  all_goals intro he; subst he; simp at h1 h2

theorem valD_append (a : ℕ) (l1 l2 : List Char) :
    valD a (l1 ++ l2) = valD (valD a l1) l2 := by
  unfold valD
  rw [List.foldl_append]

theorem valD_shift (ds : List Char) : ∀ a, valD a ds = a * 10 ^ ds.length + valD 0 ds := by
  induction ds with
  | nil => intro a; simp [valD]
  | cons c ds ih =>
    intro a
    have h1 : valD a (c :: ds) = valD (10 * a + digitVal c) ds := rfl
    have h2 : valD 0 (c :: ds) = valD (digitVal c) ds := by simp [valD]
    rw [h1, h2, ih (10 * a + digitVal c), ih (digitVal c)]
    simp [List.length_cons, pow_succ]
    ring

theorem valD_lt (ds : List Char) (h : AllDigits ds) : valD 0 ds < 10 ^ ds.length := by
  induction ds with
  | nil => simp [valD]
  | cons c ds ih =>
    have hc : digitVal c < 10 := digitVal_lt c (h c (by simp))
    have hds : AllDigits ds := fun x hx => h x (by simp [hx])
    have h1 : valD 0 (c :: ds) = valD (digitVal c) ds := by simp [valD]
    rw [h1, valD_shift ds (digitVal c)]
    have := ih hds
    have hpow : (0:ℕ) < 10 ^ ds.length := by positivity
    simp only [List.length_cons, pow_succ]
    nlinarith

theorem takeWhile_digits_append (l1 l2 : List Char) (h : AllDigits l1) :
    (l1 ++ l2).takeWhile Char.isDigit = l1 ++ l2.takeWhile Char.isDigit := by
  induction l1 with
  | nil => simp
  | cons c l1 ih =>
    have hc : c.isDigit = true := h c (by simp)
    have hl1 : AllDigits l1 := fun x hx => h x (by simp [hx])
    simp [List.takeWhile_cons, hc, ih hl1]

theorem dropWhile_digits_append (l1 l2 : List Char) (h : AllDigits l1) :
    (l1 ++ l2).dropWhile Char.isDigit = l2.dropWhile Char.isDigit := by
  induction l1 with
  | nil => simp
  | cons c l1 ih =>
    have hc : c.isDigit = true := h c (by simp)
    have hl1 : AllDigits l1 := fun x hx => h x (by simp [hx])
    simp [List.dropWhile_cons, hc, ih hl1]

theorem takeWhile_all (l : List Char) (h : AllDigits l) :
    l.takeWhile Char.isDigit = l := by
  have := takeWhile_digits_append l [] h
  simpa using this

theorem dropWhile_all (l : List Char) (h : AllDigits l) :
    l.dropWhile Char.isDigit = [] := by
  have := dropWhile_digits_append l [] h
  simpa using this

theorem natDigitsF_spec : ∀ (fuel n : ℕ), n ≤ fuel → ∀ acc : List Char,
    ∃ ds, natDigitsF fuel n acc = ds ++ acc ∧ AllDigits ds ∧ valD 0 ds = n := by
  intro fuel
  induction fuel with
  | zero =>
    intro n hn acc
    have h0 : n = 0 := by omega
    subst h0
    exact ⟨[], rfl, fun c hc => absurd hc (List.not_mem_nil c), rfl⟩
  | succ fuel ih =>
    intro n hn acc
    by_cases h0 : n = 0
    · subst h0
      exact ⟨[], by simp [natDigitsF], fun c hc => absurd hc (List.not_mem_nil c), rfl⟩
    · have hdiv : n / 10 ≤ fuel := by
        have := Nat.div_lt_self (Nat.pos_of_ne_zero h0) (by norm_num : (1:ℕ) < 10)
        omega
      obtain ⟨ds, hds, hdig, hval⟩ := ih (n / 10) hdiv (digitChar (n % 10) :: acc)
      refine ⟨ds ++ [digitChar (n % 10)], ?_, ?_, ?_⟩
      · simp [natDigitsF, h0, hds]
      · intro c hc
        rcases List.mem_append.mp hc with hc | hc
        · exact hdig c hc
        · simp at hc
          subst hc
          exact digitChar_isDigit (n % 10)
      · rw [valD_append, hval]
        have hm : digitVal (digitChar (n % 10)) = n % 10 :=
          digitVal_digitChar (n % 10) (Nat.mod_lt n (by norm_num))
        simp [valD, hm]
        omega

theorem natStr_spec (n : ℕ) :
    AllDigits (natStr n) ∧ natStr n ≠ [] ∧ valD 0 (natStr n) = n := by
  unfold natStr
  by_cases h : n = 0
  · subst h
    refine ⟨?_, by simp, rfl⟩
    intro c hc
    simp at hc
    subst hc
    rfl
  · simp only [h, if_false]
    obtain ⟨ds, hds, hdig, hval⟩ := natDigitsF_spec n n le_rfl []
    rw [hds]
    simp only [List.append_nil]
    refine ⟨hdig, ?_, hval⟩
    intro hnil
    rw [hnil] at hval
    simp [valD] at hval
    exact h hval.symm

theorem padDigits_spec : ∀ (k n : ℕ), n < 10 ^ k →
    AllDigits (padDigits k n) ∧ (padDigits k n).length = k ∧
    ∀ a, valD a (padDigits k n) = a * 10 ^ k + n := by
  intro k
  induction k with
  | zero =>
    intro n hn
    have h0 : n = 0 := by simpa using hn
    subst h0
    exact ⟨fun c hc => absurd hc (List.not_mem_nil c), rfl, fun a => by simp [padDigits, valD]⟩
  | succ k ih =>
    intro n hn
    have hdiv : n / 10 < 10 ^ k := by
      rw [Nat.div_lt_iff_lt_mul (by norm_num : (0:ℕ) < 10)]
      calc n < 10 ^ (k + 1) := hn
        _ = 10 ^ k * 10 := by rw [pow_succ]
    obtain ⟨hdig, hlen, hval⟩ := ih (n / 10) hdiv
    refine ⟨?_, ?_, ?_⟩
    · intro c hc
      rcases List.mem_append.mp hc with hc | hc
      · exact hdig c hc
      · simp at hc
        subst hc
        exact digitChar_isDigit (n % 10)
    · simp [padDigits, hlen]
    · intro a
      show valD a (padDigits k (n / 10) ++ [digitChar (n % 10)]) = a * 10 ^ (k + 1) + n
      rw [valD_append, hval a]
      have hm : digitVal (digitChar (n % 10)) = n % 10 :=
        digitVal_digitChar (n % 10) (Nat.mod_lt n (by norm_num))
      simp [valD, hm, pow_succ]
      ring_nf
      omega

/-! ## Helper lemmas: parsing printed numerals -/

theorem jsParseFloatCore_digits (ds : List Char) (hd : AllDigits ds) (hne : ds ≠ []) :
    jsParseFloatCore ds = some ((valD 0 ds : ℚ)) := by
  unfold jsParseFloatCore
  rw [takeWhile_all ds hd, dropWhile_all ds hd]
  simp [hne, fracSplit, expSplit, applyExp, digitsToNat, valD]

theorem jsParseFloatCore_point (ds1 ds2 : List Char) (h1 : AllDigits ds1)
    (hne : ds1 ≠ []) (h2 : AllDigits ds2) :
    jsParseFloatCore (ds1 ++ '.' :: ds2)
      = some ((valD 0 ds1 : ℚ) + (valD 0 ds2 : ℚ) / 10 ^ ds2.length) := by
  unfold jsParseFloatCore
  rw [takeWhile_digits_append ds1 ('.' :: ds2) h1,
    dropWhile_digits_append ds1 ('.' :: ds2) h1]
  have hdot : ('.' : Char).isDigit = false := rfl
  rw [List.takeWhile_cons_of_neg (by simp [hdot]), List.dropWhile_cons_of_neg (by simp [hdot])]
  simp [hne, fracSplit, expSplit, applyExp, digitsToNat,
    takeWhile_all ds2 h2, dropWhile_all ds2 h2]

theorem jsParseFloat_eq_core_of_digit (c : Char) (cs : List Char) (hc : c.isDigit = true) :
    jsParseFloat ⟨c :: cs⟩ = jsParseFloatCore (c :: cs) := by
  obtain ⟨hw, hm, hp, _, _, _⟩ := digit_char_facts c hc
  unfold jsParseFloat
  show (jsParseFloatCore (stripSign ((c :: cs).dropWhile Char.isWhitespace)).2).map _
    = jsParseFloatCore (c :: cs)
  rw [List.dropWhile_cons_of_neg (by simp [hw])]
  simp only [stripSign, if_neg hm, if_neg hp]
  cases h : jsParseFloatCore (c :: cs) <;> simp [h]

theorem jsParseFloat_neg_head (cs : List Char) :
    jsParseFloat ⟨'-' :: cs⟩ = (jsParseFloatCore cs).map (fun q => -q) := by
  have hw : ('-' : Char).isWhitespace = false := rfl
  unfold jsParseFloat
  show (jsParseFloatCore (stripSign (('-' :: cs).dropWhile Char.isWhitespace)).2).map _
    = (jsParseFloatCore cs).map (fun q => -q)
  rw [List.dropWhile_cons_of_neg (by simp [hw])]
  simp only [stripSign, if_pos rfl]
  cases h : jsParseFloatCore cs <;> simp [h]

theorem jsParseInt_digits : ∀ (ds : List Char), AllDigits ds → ds ≠ [] →
    jsParseInt ⟨ds⟩ = some ((valD 0 ds : ℤ))
  | [], _, hne => absurd rfl hne
  | c :: cs, hd, _ => by
    have hc : c.isDigit = true := hd c (by simp)
    obtain ⟨hw, hm, hp, _, _, _⟩ := digit_char_facts c hc
    unfold jsParseInt
    show (fun sc : ℤ × List Char =>
        if (sc.2.takeWhile Char.isDigit).isEmpty then none
        else some (sc.1 * (digitsToNat (sc.2.takeWhile Char.isDigit) : ℤ)))
      (stripSign ((String.mk (c :: cs)).data.dropWhile Char.isWhitespace))
      = some ((valD 0 (c :: cs) : ℤ))
  
    rw [show (String.mk (c :: cs)).data = c :: cs from rfl]
    rw [List.dropWhile_cons_of_neg (by simp [hw])]
    simp only [stripSign, if_neg hm, if_neg hp]
    rw [takeWhile_all _ hd]
    show (if (c :: cs).isEmpty then none else some _) = _
    rw [show (c :: cs).isEmpty = false from rfl]
    simp [digitsToNat]

theorem jsParseInt_neg_digits (ds : List Char) (hd : AllDigits ds) (hne : ds ≠ []) :
    jsParseInt ⟨'-' :: ds⟩ = some (-(valD 0 ds : ℤ)) := by
  have hw : ('-' : Char).isWhitespace = false := rfl
  have hss : stripSign ('-' :: ds) = (-1, ds) := by simp [stripSign]
  have hie : ds.isEmpty = false := by
    cases ds
    · exact absurd rfl hne
    · rfl
  unfold jsParseInt
  show (fun sc : ℤ × List Char =>
      if (sc.2.takeWhile Char.isDigit).isEmpty then none
      else some (sc.1 * (digitsToNat (sc.2.takeWhile Char.isDigit) : ℤ)))
    (stripSign ((String.mk ('-' :: ds)).data.dropWhile Char.isWhitespace))
    = some (-(valD 0 ds : ℤ))
  rw [show (String.mk ('-' :: ds)).data = '-' :: ds from rfl]
  rw [List.dropWhile_cons_of_neg (by simp [hw]), hss]
  show (if (ds.takeWhile Char.isDigit).isEmpty then none
      else some ((-1 : ℤ) * (digitsToNat (ds.takeWhile Char.isDigit) : ℤ)))
    = some (-(valD 0 ds : ℤ))
  rw [takeWhile_all _ hd, hie]
  simp [digitsToNat]

theorem jsParseInt_intToString (i : ℤ) : jsParseInt (intToString i) = some i := by
  obtain ⟨hdig, hne, hval⟩ := natStr_spec i.natAbs
  unfold intToString
  by_cases hneg : i < 0
  · rw [if_pos hneg, jsParseInt_neg_digits _ hdig hne, hval]
    have : (i.natAbs : ℤ) = -i := by omega
    rw [this]
    simp
  · rw [if_neg hneg, jsParseInt_digits _ hdig hne, hval]
    have : (i.natAbs : ℤ) = i := by omega
    rw [this]

theorem jsParseFloatCore_ratCore (n : ℤ) (k : ℕ) :
    jsParseFloatCore (ratCore n k) = some ((n.natAbs : ℚ) / 10 ^ k) := by
  by_cases hk : k = 0
  · subst hk
    obtain ⟨hdig, hne, hval⟩ := natStr_spec n.natAbs
    have hrc : ratCore n 0 = natStr n.natAbs := by
      unfold ratCore
      rw [if_pos rfl]
    rw [hrc, jsParseFloatCore_digits _ hdig hne, hval]
    norm_num
  · have hrc : ratCore n k
        = natStr (n.natAbs / 10 ^ k) ++ '.' :: padDigits k (n.natAbs % 10 ^ k) := by
      unfold ratCore
      rw [if_neg hk]
    obtain ⟨hdig1, hne1, hval1⟩ := natStr_spec (n.natAbs / 10 ^ k)
    have hmodlt : n.natAbs % 10 ^ k < 10 ^ k := Nat.mod_lt _ (by positivity)
    obtain ⟨hdig2, hlen2, hval2⟩ := padDigits_spec k (n.natAbs % 10 ^ k) hmodlt
    rw [hrc, jsParseFloatCore_point _ _ hdig1 hne1 hdig2, hval1, hlen2]
    have hv2 : valD 0 (padDigits k (n.natAbs % 10 ^ k)) = n.natAbs % 10 ^ k := by
      have := hval2 0
      simpa using this
    rw [hv2]
    have hp : ((10 : ℚ)) ^ k ≠ 0 := by positivity
    have h' : n.natAbs / 10 ^ k * 10 ^ k + n.natAbs % 10 ^ k = n.natAbs := by
      rw [mul_comm]
      exact Nat.div_add_mod _ _
    congr 1
    rw [eq_div_iff hp, add_mul, div_mul_cancel₀ _ hp]
    exact_mod_cast h'

theorem ratCore_head (n : ℤ) (k : ℕ) :
    ∃ c cs, ratCore n k = c :: cs ∧ c.isDigit = true := by
  unfold ratCore
  by_cases hk : k = 0
  · subst hk
    rw [if_pos rfl]
    obtain ⟨hdig, hne, _⟩ := natStr_spec n.natAbs
    rcases hns : natStr n.natAbs with _ | ⟨c, cs⟩
    · exact absurd hns hne
    · exact ⟨c, cs, rfl, hdig c (by simp [hns])⟩
  · rw [if_neg hk]
    obtain ⟨hdig, hne, _⟩ := natStr_spec (n.natAbs / 10 ^ k)
    rcases hns : natStr (n.natAbs / 10 ^ k) with _ | ⟨c, cs⟩
    · exact absurd hns hne
    · exact ⟨c, cs ++ '.' :: padDigits k (n.natAbs % 10 ^ k), by simp [hns],
        hdig c (by simp [hns])⟩

theorem jsParseFloat_print (n : ℤ) (k : ℕ) :
    jsParseFloat ⟨if n < 0 then '-' :: ratCore n k else ratCore n k⟩
      = some ((n : ℚ) / 10 ^ k) := by
  obtain ⟨c, cs, hcc, hc⟩ := ratCore_head n k
  by_cases hneg : n < 0
  · rw [if_pos hneg, jsParseFloat_neg_head, jsParseFloatCore_ratCore]
    have hcast : (n.natAbs : ℚ) = -(n : ℚ) := by
      rw [Int.cast_natAbs]
      exact_mod_cast abs_of_neg hneg
    simp [hcast, neg_div]
  · rw [if_neg hneg, hcc, jsParseFloat_eq_core_of_digit c cs hc, ← hcc,
      jsParseFloatCore_ratCore]
    have hcast : (n.natAbs : ℚ) = (n : ℚ) := by
      rw [Int.cast_natAbs]
      exact_mod_cast abs_of_nonneg (not_lt.mp hneg)
    rw [hcast]

/-! ## Helper lemmas: decimal rationals and the printer -/

theorem dvd_ten_pow_self (d k : ℕ) (h : d ∣ 10 ^ k) : d ∣ 10 ^ d := by
  have h25 : d ∣ 2 ^ k * 5 ^ k := by
    have h10 : (10 : ℕ) ^ k = 2 ^ k * 5 ^ k := by
      rw [← mul_pow]
      norm_num
    rwa [h10] at h
  obtain ⟨d1, d2, hd1, hd2, hd⟩ := Nat.dvd_mul.mp h25
  obtain ⟨a, _, rfl⟩ := (Nat.dvd_prime_pow Nat.prime_two).mp hd1
  obtain ⟨b, _, rfl⟩ := (Nat.dvd_prime_pow (by norm_num : Nat.Prime 5)).mp hd2
  subst hd
  have ha' : a ≤ 2 ^ a * 5 ^ b := by
    nlinarith [Nat.lt_two_pow a, pow_pos (by norm_num : 0 < 5) b,
      pow_pos (by norm_num : 0 < 2) a]
  have hb' : b ≤ 2 ^ a * 5 ^ b := by
    nlinarith [Nat.lt_two_pow b, Nat.pow_le_pow_left (by norm_num : 2 ≤ 5) b,
      pow_pos (by norm_num : 0 < 2) a, pow_pos (by norm_num : 0 < 5) b]
  calc 2 ^ a * 5 ^ b ∣ 2 ^ (2 ^ a * 5 ^ b) * 5 ^ (2 ^ a * 5 ^ b) :=
      mul_dvd_mul (pow_dvd_pow 2 ha') (pow_dvd_pow 5 hb')
    _ = 10 ^ (2 ^ a * 5 ^ b) := by
      rw [← mul_pow]
      norm_num

theorem den_dvd_ten_pow (n : ℤ) (k : ℕ) : (((n : ℚ) / 10 ^ k)).den ∣ 10 ^ k := by
  have h1 : ((n : ℚ) / 10 ^ k) = Rat.divInt n ((10 : ℤ) ^ k) := by
    rw [Rat.divInt_eq_div]
    push_cast
    ring
  rw [h1]
  have h2 := Rat.den_dvd n ((10 : ℤ) ^ k)
  have h3 : ((Rat.divInt n ((10 : ℤ) ^ k)).den : ℤ) ∣ (((10 : ℕ) ^ k : ℕ) : ℤ) := by
    push_cast
    exact h2
  exact_mod_cast h3

theorem isDec_den (q : ℚ) (h : IsDec q) : q.den ∣ 10 ^ q.den := by
  obtain ⟨n, k, rfl⟩ := h
  exact dvd_ten_pow_self _ k (den_dvd_ten_pow n k)

theorem den_mul_pow_eq_one (q : ℚ) (m : ℕ) (h : q.den ∣ 10 ^ m) :
    (q * 10 ^ m).den = 1 := by
  obtain ⟨t, ht⟩ := h
  have hden0 : (q.den : ℚ) ≠ 0 := Nat.cast_ne_zero.mpr q.den_nz
  have hq : q * (q.den : ℚ) = (q.num : ℚ) := by
    nth_rewrite 1 [← Rat.num_div_den q]
    exact div_mul_cancel₀ _ hden0
  have h10 : ((10 : ℚ)) ^ m = (q.den : ℚ) * (t : ℚ) := by
    have hc : ((10 ^ m : ℕ) : ℚ) = ((q.den * t : ℕ) : ℚ) := by
      exact_mod_cast congrArg (fun x : ℕ => (x : ℚ)) ht
    push_cast at hc
    exact hc
  have hqq : q * 10 ^ m = ((q.num * t : ℤ) : ℚ) := by
    calc q * 10 ^ m = q * ((q.den : ℚ) * t) := by rw [h10]
      _ = q * (q.den : ℚ) * t := by ring
      _ = (q.num : ℚ) * t := by rw [hq]
      _ = ((q.num * t : ℤ) : ℚ) := by push_cast; ring
  rw [hqq, Rat.den_intCast]

theorem decExpSearch_some (q : ℚ) (h : IsDec q) :
    ∃ k, decExpSearch q = some k ∧ (q * 10 ^ k).den = 1 := by
  have hden := den_mul_pow_eq_one q q.den (isDec_den q h)
  unfold decExpSearch
  rcases hf : (List.range (q.den + 1)).find? (fun k => (q * 10 ^ k).den == 1) with _ | k
  · exfalso
    have hmem : q.den ∈ List.range (q.den + 1) := List.mem_range.mpr (Nat.lt_succ_self _)
    have hnone := List.find?_eq_none.mp hf q.den hmem
    simp [hden] at hnone
  · refine ⟨k, hf, ?_⟩
    have hp := List.find?_some hf
    simpa using hp

theorem ratToString_correct (q : ℚ) (h : IsDec q) :
    jsParseFloat (ratToString q) = some q := by
  obtain ⟨k, hk, hden⟩ := decExpSearch_some q h
  unfold ratToString
  rw [hk]
  show jsParseFloat ⟨if (q * 10 ^ k).num < 0 then '-' :: ratCore (q * 10 ^ k).num k
      else ratCore (q * 10 ^ k).num k⟩ = some q
  rw [jsParseFloat_print]
  congr 1
  have hnum : (((q * 10 ^ k).num : ℚ)) = q * 10 ^ k := Rat.coe_int_num_of_den_eq_one hden
  rw [hnum]
  have hp : ((10 : ℚ)) ^ k ≠ 0 := by positivity
  field_simp

theorem isDec_zero : IsDec 0 := ⟨0, 0, by norm_num⟩

theorem isDec_base (A B L : ℕ) : IsDec ((A : ℚ) + (B : ℚ) / 10 ^ L) := by
  refine ⟨(A : ℤ) * 10 ^ L + B, L, ?_⟩
  have hp : ((10 : ℚ)) ^ L ≠ 0 := by positivity
  have hc : (((A : ℤ) * 10 ^ L + B : ℤ) : ℚ) = (A : ℚ) * 10 ^ L + (B : ℚ) := by
    push_cast
    ring
  rw [hc, add_div, mul_div_cancel_right₀ _ hp]

theorem isDec_neg (q : ℚ) (h : IsDec q) : IsDec (-q) := by
  obtain ⟨n, k, rfl⟩ := h
  exact ⟨-n, k, by push_cast; ring⟩

theorem isDec_applyExp (q : ℚ) (e : ℤ) (h : IsDec q) : IsDec (applyExp q e) := by
  obtain ⟨n, k, rfl⟩ := h
  unfold applyExp
  split_ifs with he
  · exact ⟨n * 10 ^ e.toNat, k, by push_cast; ring⟩
  · exact ⟨n, k + (-e).toNat, by rw [pow_add, div_div]⟩

theorem jsParseFloatCore_isDec (cs : List Char) (q : ℚ)
    (h : jsParseFloatCore cs = some q) : IsDec q := by
  simp only [jsParseFloatCore] at h
  split_ifs at h with hc
  rw [Option.some_inj] at h
  rw [← h]
  exact isDec_applyExp _ _ (isDec_base _ _ _)

theorem stripSign_sign (cs : List Char) :
    (stripSign cs).1 = 1 ∨ (stripSign cs).1 = -1 := by
  cases cs with
  | nil => exact Or.inl rfl
  | cons c r =>
    simp only [stripSign]
    split_ifs <;> simp

theorem jsParseFloat_isDec (s : String) (q : ℚ) (h : jsParseFloat s = some q) :
    IsDec q := by
  simp only [jsParseFloat] at h
  rw [Option.map_eq_some'] at h
  obtain ⟨w, hw, hq⟩ := h
  have hd := jsParseFloatCore_isDec _ _ hw
  rcases stripSign_sign (s.data.dropWhile Char.isWhitespace) with hs | hs <;>
    rw [hs] at hq
  · rw [← hq]
    simpa using hd
  · rw [← hq]
    have hn := isDec_neg w hd
    simpa using hn

theorem jsNum_isDec (s : String) : IsDec (jsNum (jsParseFloat s)) := by
  rcases h : jsParseFloat s with _ | q
  · simpa [jsNum] using isDec_zero
  · simpa [jsNum] using jsParseFloat_isDec s q h

/-! ## Helper lemmas: dates -/

theorem digitVal_digitChar_mod (x : ℕ) : digitVal (digitChar (x % 10)) = x % 10 :=
  digitVal_digitChar _ (Nat.mod_lt _ (by norm_num))

theorem padDigits_two_eq (n : ℕ) :
    padDigits 2 n = [digitChar (n / 10 % 10), digitChar (n % 10)] := rfl

theorem padDigits_four_eq (n : ℕ) :
    padDigits 4 n = [digitChar (n / 10 / 10 / 10 % 10), digitChar (n / 10 / 10 % 10),
      digitChar (n / 10 % 10), digitChar (n % 10)] := rfl

theorem jsParseDate_valid (s : String) (dt : CalDate) (h : jsParseDate s = some dt) :
    ValidDate dt := by
  unfold jsParseDate parseDateList at h
  split at h
  case _ =>
    rename_i y1 y2 y3 y4 h1 m1 m2 h2 d1 d2 heq
    split_ifs at h with hc1 hc2
    · obtain ⟨_, _, hy1, hy2, hy3, hy4, _, _, _, _⟩ := hc1
      obtain ⟨hm1, hm2, hd1, hd2⟩ := hc2
      rw [Option.some_inj] at h
      subst h
      refine ⟨?_, hm1, hm2, hd1, hd2⟩
      have hall : AllDigits [y1, y2, y3, y4] := by
        intro c hc
        simp at hc
        rcases hc with rfl | rfl | rfl | rfl <;> assumption
      have := valD_lt [y1, y2, y3, y4] hall
      simpa [digitsToNat] using this
  case _ =>
    exact absurd h (by simp)

theorem dateToString_roundtrip (dt : CalDate) (h : ValidDate dt) :
    jsParseDate (dateToString (some dt)) = some dt := by
  obtain ⟨y, m, d⟩ := dt
  obtain ⟨hy, hm1, hm2, hd1, hd2⟩ := h
  simp only at hy hm1 hm2 hd1 hd2
  have hyv : digitsToNat [digitChar (y / 10 / 10 / 10 % 10), digitChar (y / 10 / 10 % 10),
      digitChar (y / 10 % 10), digitChar (y % 10)] = y := by
    simp [digitsToNat, valD, digitVal_digitChar_mod]
    omega
  have hmv : digitsToNat [digitChar (m / 10 % 10), digitChar (m % 10)] = m := by
    simp [digitsToNat, valD, digitVal_digitChar_mod]
    omega
  have hdv : digitsToNat [digitChar (d / 10 % 10), digitChar (d % 10)] = d := by
    simp [digitsToNat, valD, digitVal_digitChar_mod]
    omega
  show jsParseDate ⟨padDigits 4 y ++ '-' :: padDigits 2 m ++ '-' :: padDigits 2 d⟩
    = some ⟨y, m, d⟩
  rw [padDigits_four_eq, padDigits_two_eq, padDigits_two_eq]
  show jsParseDate ⟨[digitChar (y / 10 / 10 / 10 % 10), digitChar (y / 10 / 10 % 10),
      digitChar (y / 10 % 10), digitChar (y % 10), '-',
      digitChar (m / 10 % 10), digitChar (m % 10), '-',
      digitChar (d / 10 % 10), digitChar (d % 10)]⟩ = some ⟨y, m, d⟩
  show parseDateList [digitChar (y / 10 / 10 / 10 % 10), digitChar (y / 10 / 10 % 10),
      digitChar (y / 10 % 10), digitChar (y % 10), '-',
      digitChar (m / 10 % 10), digitChar (m % 10), '-',
      digitChar (d / 10 % 10), digitChar (d % 10)] = some ⟨y, m, d⟩
  simp only [parseDateList]
  rw [if_pos (by simp [digitChar_isDigit])]
  rw [hmv, hdv, hyv]
  rw [if_pos ⟨hm1, hm2, hd1, hd2⟩]

theorem dateOK_roundtrip (o : Option CalDate) (h : DateOK o) :
    jsParseDate (dateToString o) = o := by
  cases o with
  | none => decide
  | some dt => exact dateToString_roundtrip dt h

/-! ## Helper lemmas: the record-level round trip -/

theorem normalizeRow_fieldOK (i : ℕ) (row : RawRow) : FieldOK (normalizeRow i row) := by
  have hds : DateOK (jsParseDate (rowGet row "Start Date")) := by
    rcases hp : jsParseDate (rowGet row "Start Date") with _ | dt
    · trivial
    · exact jsParseDate_valid _ dt hp
  have hde : DateOK (jsParseDate (rowGet row "End Date")) := by
    rcases hp : jsParseDate (rowGet row "End Date") with _ | dt
    · trivial
    · exact jsParseDate_valid _ dt hp
  exact ⟨jsNum_isDec _, jsNum_isDec _, jsNum_isDec _, hds, hde⟩

theorem serializeRecord_roundtrip (j : ℕ) (r : CampaignRecord) (h : FieldOK r) :
    recEquiv (normalizeRow j (serializeRecord r)) r := by
  obtain ⟨hc, ha, hs, hsd, hed⟩ := h
  have g1 : rowGet (serializeRecord r) "Clicks" = intToString r.clicks := by
    simp [rowGet, serializeRecord, List.lookup]
  have g2 : rowGet (serializeRecord r) "Cost" = ratToString r.cost := by
    simp [rowGet, serializeRecord, List.lookup]
  have g3 : rowGet (serializeRecord r) "Avg. CPC" = ratToString r.avgCpc := by
    simp [rowGet, serializeRecord, List.lookup]
  have g4 : rowGet (serializeRecord r) "Installs" = intToString r.installs := by
    simp [rowGet, serializeRecord, List.lookup]
  have g5 : rowGet (serializeRecord r) "Trials" = intToString r.trials := by
    simp [rowGet, serializeRecord, List.lookup]
  have g6 : rowGet (serializeRecord r) "Subscriptions" = intToString r.subscriptions := by
    simp [rowGet, serializeRecord, List.lookup]
  have g7 : rowGet (serializeRecord r) "Subscription Value"
      = ratToString r.subscriptionValue := by
    simp [rowGet, serializeRecord, List.lookup]
  have g8 : rowGet (serializeRecord r) "Start Date" = dateToString r.startDate := by
    simp [rowGet, serializeRecord, List.lookup]
  have g9 : rowGet (serializeRecord r) "End Date" = dateToString r.endDate := by
    simp [rowGet, serializeRecord, List.lookup]
  refine ⟨?_, ?_, ?_, ?_, ?_, ?_, ?_, ?_, ?_⟩
  · show jsInt (jsParseInt (rowGet (serializeRecord r) "Clicks")) = r.clicks
    rw [g1, jsParseInt_intToString]
    rfl
  · show jsNum (jsParseFloat (rowGet (serializeRecord r) "Cost")) = r.cost
    rw [g2, ratToString_correct _ hc]
    rfl
  · show jsNum (jsParseFloat (rowGet (serializeRecord r) "Avg. CPC")) = r.avgCpc
    rw [g3, ratToString_correct _ ha]
    rfl
  · show jsInt (jsParseInt (rowGet (serializeRecord r) "Installs")) = r.installs
    rw [g4, jsParseInt_intToString]
    rfl
  · show jsInt (jsParseInt (rowGet (serializeRecord r) "Trials")) = r.trials
    rw [g5, jsParseInt_intToString]
    rfl
  · show jsInt (jsParseInt (rowGet (serializeRecord r) "Subscriptions"))
      = r.subscriptions
    rw [g6, jsParseInt_intToString]
    rfl
  · show jsNum (jsParseFloat (rowGet (serializeRecord r) "Subscription Value"))
      = r.subscriptionValue
    rw [g7, ratToString_correct _ hs]
    rfl
  · show jsParseDate (rowGet (serializeRecord r) "Start Date") = r.startDate
    rw [g8]
    exact dateOK_roundtrip _ hsd
  · show jsParseDate (rowGet (serializeRecord r) "End Date") = r.endDate
    rw [g9]
    exact dateOK_roundtrip _ hed

theorem normalizeAll_fieldOK (rows : List RawRow) :
    ∀ start, ∀ r ∈ normalizeAll start rows, FieldOK r := by
  induction rows with
  | nil =>
    intro start r hr
    simp [normalizeAll] at hr
  | cons row rest ih =>
    intro start r hr
    simp only [normalizeAll, List.mem_cons] at hr
    rcases hr with rfl | hr
    · exact normalizeRow_fieldOK _ _
    · exact ih (start + 1) r hr

theorem roundtrip_all (l : List CampaignRecord) :
    (∀ r ∈ l, FieldOK r) → ∀ j,
      List.Forall₂ recEquiv (normalizeAll j (l.map serializeRecord)) l := by
  induction l with
  | nil =>
    intro _ j
    exact List.Forall₂.nil
  | cons r l ih =>
    intro hl j
    simp only [List.map_cons, normalizeAll]
    exact List.Forall₂.cons (serializeRecord_roundtrip j r (hl r (by simp)))
      (ih (fun x hx => hl x (by simp [hx])) (j + 1))

/-- A concrete dataset for the round-trip witness. -/
def sampleRows : List RawRow :=
  [[("Clicks", "100"), ("Cost", "50.5"), ("Avg. CPC", "0.5"), ("Installs", "20"),
    ("Trials", "10"), ("Subscriptions", "5"), ("Subscription Value", "19.99"),
    ("Start Date", "2024-01-15"), ("End Date", "2024-01-31"), ("Ad Group", "Brand")]]

/-! ## Helper lemmas -/

theorem processAll_ok (rows : List RawRow) :
    ∀ start, processAll start rows = Except.ok (normalizeAll start rows) := by
  induction rows with
  | nil => intro start; rfl
  | cons row rest ih => intro start; simp [processAll, processRow, normalizeAll, ih]

theorem normalizeAll_length (rows : List RawRow) :
    ∀ start, (normalizeAll start rows).length = rows.length := by
  induction rows with
  | nil => intro start; rfl
  | cons row rest ih => intro start; simp [normalizeAll, ih]

theorem foldl_addRow_acc (R : List CampaignRecord) :
    ∀ acc : Totals,
      (R.foldl addRow acc).clicks = acc.clicks + (R.map CampaignRecord.clicks).sum ∧
      (R.foldl addRow acc).cost = acc.cost + (R.map CampaignRecord.cost).sum ∧
      (R.foldl addRow acc).installs = acc.installs + (R.map CampaignRecord.installs).sum ∧
      (R.foldl addRow acc).trials = acc.trials + (R.map CampaignRecord.trials).sum ∧
      (R.foldl addRow acc).subscriptions
        = acc.subscriptions + (R.map CampaignRecord.subscriptions).sum ∧
      (R.foldl addRow acc).revenue
        = acc.revenue + (R.map (fun r => (r.subscriptions : ℚ) * r.subscriptionValue)).sum := by
  induction R with
  | nil => intro acc; simp
  | cons r R ih =>
    intro acc
    obtain ⟨h1, h2, h3, h4, h5, h6⟩ := ih (addRow acc r)
    refine ⟨?_, ?_, ?_, ?_, ?_, ?_⟩
    · rw [List.foldl_cons, h1]; simp only [addRow, List.map_cons, List.sum_cons]; ring
    · rw [List.foldl_cons, h2]; simp only [addRow, List.map_cons, List.sum_cons]; ring
    · rw [List.foldl_cons, h3]; simp only [addRow, List.map_cons, List.sum_cons]; ring
    · rw [List.foldl_cons, h4]; simp only [addRow, List.map_cons, List.sum_cons]; ring
    · rw [List.foldl_cons, h5]; simp only [addRow, List.map_cons, List.sum_cons]; ring
    · rw [List.foldl_cons, h6]; simp only [addRow, List.map_cons, List.sum_cons]; ring

theorem recPasses_eq_specPass (f : FilterState) (r : CampaignRecord) :
    recPasses f r = specPass f r := by
  unfold recPasses specPass specDatePass inDateRange
  cases r.adGroup <;> simp

/-! ## The claims -/

/-- Claim C1: for every record sequence `R`, the aggregation totals are
the field-wise sums of `R` (clicks, cost, installs, trials,
subscriptions), and the revenue total is the weighted sum
`Σ r.subscriptions * r.subscriptionValue`, which differs from the plain
sum of the `subscriptionValue` column on some sequence. -/
theorem aggregate_totals_fieldwise_sums (R : List CampaignRecord) :
    (computeTotals R).clicks = (R.map CampaignRecord.clicks).sum ∧
    (computeTotals R).cost = (R.map CampaignRecord.cost).sum ∧
    (computeTotals R).installs = (R.map CampaignRecord.installs).sum ∧
    (computeTotals R).trials = (R.map CampaignRecord.trials).sum ∧
    (computeTotals R).subscriptions = (R.map CampaignRecord.subscriptions).sum ∧
    (computeTotals R).revenue
      = (R.map (fun r => (r.subscriptions : ℚ) * r.subscriptionValue)).sum ∧
    ∃ R0 : List CampaignRecord,
      (computeTotals R0).revenue ≠ (R0.map CampaignRecord.subscriptionValue).sum := by
  obtain ⟨h1, h2, h3, h4, h5, h6⟩ := foldl_addRow_acc R initialTotals
  unfold computeTotals
  refine ⟨?_, ?_, ?_, ?_, ?_, ?_, ?_⟩
  · simpa [initialTotals] using h1
  · simpa [initialTotals] using h2
  · simpa [initialTotals] using h3
  · simpa [initialTotals] using h4
  · simpa [initialTotals] using h5
  · simpa [initialTotals] using h6
  · exact ⟨[{ id := 0, clicks := 0, cost := 0, avgCpc := 0, installs := 0,
              trials := 0, subscriptions := 2, subscriptionValue := 3,
              startDate := none, endDate := none, adGroup := none }],
      by with_unfolding_all decide⟩

/-- Claim C2: `safeDivide n 0 = 0`; for `d ≠ 0`, `safeDivide n d = n / d`;
and every derived ratio of the aggregation engine is the image of
`safeDivide` applied to its totals, so over the embedded rationals no
ratio is an undefined division. -/
theorem safeDivide_spec (n d : ℚ) (R : List CampaignRecord) (hd : d ≠ 0) :
    safeDivide n 0 = 0 ∧
    safeDivide n d = n / d ∧
    (summaryOf R).cpi = safeDivide (computeTotals R).cost ((computeTotals R).installs : ℚ) ∧
    (summaryOf R).installRate
      = safeDivide ((computeTotals R).installs : ℚ) ((computeTotals R).clicks : ℚ) ∧
    (summaryOf R).installToTrialRate
      = safeDivide ((computeTotals R).trials : ℚ) ((computeTotals R).installs : ℚ) ∧
    (summaryOf R).trialCost
      = safeDivide (computeTotals R).cost ((computeTotals R).trials : ℚ) ∧
    (summaryOf R).installToPaidRate
      = safeDivide ((computeTotals R).subscriptions : ℚ) ((computeTotals R).installs : ℚ) ∧
    (summaryOf R).cac
      = safeDivide (computeTotals R).cost ((computeTotals R).subscriptions : ℚ) ∧
    (summaryOf R).valueCostRatio
      = safeDivide (computeTotals R).revenue (computeTotals R).cost ∧
    (summaryOf R).overallConversion
      = safeDivide ((computeTotals R).subscriptions : ℚ) ((computeTotals R).clicks : ℚ) ∧
    (summaryOf R).roi
      = safeDivide ((computeTotals R).revenue - (computeTotals R).cost) (computeTotals R).cost := by
  refine ⟨by simp [safeDivide], by simp [safeDivide, hd], ?_, ?_, ?_, ?_, ?_, ?_, ?_, ?_, ?_⟩ <;> rfl

/-- Witness for C2 at `n = 3`, `d = 2`, `R = []`. -/
theorem safeDivide_spec_inst :
    safeDivide 3 0 = 0 ∧
    safeDivide 3 2 = 3 / 2 ∧
    (summaryOf []).cpi = safeDivide (computeTotals []).cost ((computeTotals []).installs : ℚ) ∧
    (summaryOf []).installRate
      = safeDivide ((computeTotals []).installs : ℚ) ((computeTotals []).clicks : ℚ) ∧
    (summaryOf []).installToTrialRate
      = safeDivide ((computeTotals []).trials : ℚ) ((computeTotals []).installs : ℚ) ∧
    (summaryOf []).trialCost
      = safeDivide (computeTotals []).cost ((computeTotals []).trials : ℚ) ∧
    (summaryOf []).installToPaidRate
      = safeDivide ((computeTotals []).subscriptions : ℚ) ((computeTotals []).installs : ℚ) ∧
    (summaryOf []).cac
      = safeDivide (computeTotals []).cost ((computeTotals []).subscriptions : ℚ) ∧
    (summaryOf []).valueCostRatio
      = safeDivide (computeTotals []).revenue (computeTotals []).cost ∧
    (summaryOf []).overallConversion
      = safeDivide ((computeTotals []).subscriptions : ℚ) ((computeTotals []).clicks : ℚ) ∧
    (summaryOf []).roi
      = safeDivide ((computeTotals []).revenue - (computeTotals []).cost) (computeTotals []).cost :=
  safeDivide_spec 3 2 [] (by norm_num)

/-- Claim C3: aggregation of the empty sequence yields all-zero totals
and all-zero ratios, and for any `R` each ratio whose denominator total
is `0` evaluates to exactly `0`. -/
theorem aggregate_empty_zero_denominators :
    summaryOf [] = ⟨⟨0, 0, 0, 0, 0, 0⟩, 0, 0, 0, 0, 0, 0, 0, 0, 0⟩ ∧
    ∀ R : List CampaignRecord,
      ((computeTotals R).installs = 0 →
        (summaryOf R).cpi = 0 ∧ (summaryOf R).installToTrialRate = 0 ∧
        (summaryOf R).installToPaidRate = 0) ∧
      ((computeTotals R).clicks = 0 →
        (summaryOf R).installRate = 0 ∧ (summaryOf R).overallConversion = 0) ∧
      ((computeTotals R).trials = 0 → (summaryOf R).trialCost = 0) ∧
      ((computeTotals R).subscriptions = 0 → (summaryOf R).cac = 0) ∧
      ((computeTotals R).cost = 0 →
        (summaryOf R).valueCostRatio = 0 ∧ (summaryOf R).roi = 0) := by
  refine ⟨by with_unfolding_all decide, fun R => ⟨?_, ?_, ?_, ?_, ?_⟩⟩ <;>
    intro h <;> simp [summaryOf, safeDivide, h]

/-- Claim C4: the filter engine returns exactly the order-preserving
subsequence selected by the spec's predicate (date window on
`startDate` only, AND ad-group match with the `"All Ad Groups"`
sentinel), and the identity filter state returns the input unchanged. -/
theorem filter_engine_spec (R : List CampaignRecord) (F : FilterState) :
    filteredData R F = R.filter (specPass F) ∧
    (filteredData R F).Sublist R ∧
    filteredData R identityFilter = R := by
  refine ⟨?_, List.filter_sublist R, ?_⟩
  · exact List.filter_congr (fun r _ => recPasses_eq_specPass F r)
  · refine List.filter_eq_self.mpr (fun r _ => ?_)
    simp [recPasses, identityFilter, inDateRange]

/-- Claim C5: a row whose `Start Date` cell does not parse normalizes
(without failing) to the invalid-date sentinel, and whenever
`dateRange.from` is set the date predicate — hence the whole filter
predicate — is false for that record. -/
theorem invalid_start_date_excluded (i : ℕ) (row : RawRow) (f : CalDate)
    (dto : Option CalDate) (ag : String)
    (h : jsParseDate (rowGet row "Start Date") = none) :
    (normalizeRow i row).startDate = none ∧
    inDateRange (normalizeRow i row).startDate ⟨some f, dto⟩ = false ∧
    recPasses ⟨⟨some f, dto⟩, ag⟩ (normalizeRow i row) = false := by
  have hs : (normalizeRow i row).startDate = none := h
  refine ⟨hs, ?_, ?_⟩
  · simp [inDateRange, hs, dateGeB]
  · simp [recPasses, inDateRange, hs, dateGeB]

/-- Witness for C5 on the unparsable cell `"not-a-date"` with
`from = 2024-01-01`. -/
theorem invalid_start_date_excluded_inst :
    (normalizeRow 0 [("Start Date", "not-a-date")]).startDate = none ∧
    inDateRange (normalizeRow 0 [("Start Date", "not-a-date")]).startDate
      ⟨some ⟨2024, 1, 1⟩, none⟩ = false ∧
    recPasses ⟨⟨some ⟨2024, 1, 1⟩, none⟩, "All Ad Groups"⟩
      (normalizeRow 0 [("Start Date", "not-a-date")]) = false :=
  invalid_start_date_excluded 0 [("Start Date", "not-a-date")] ⟨2024, 1, 1⟩ none
    "All Ad Groups" (by with_unfolding_all decide)

/-- Claim C6: schema validation lists exactly the required columns
missing from the headers, in the required-set's order (a sublist of
`REQUIRED_COLUMNS`); a non-empty missing list rejects the whole load
with that list and normalizes no row, while a complete header set
normalizes the batch; a header set lacking `"Subscription Value"` is
rejected naming exactly that column. -/
theorem schema_validation_spec (headers : List String) :
    (missingColumns headers).Sublist REQUIRED_COLUMNS ∧
    (∀ c, c ∈ missingColumns headers ↔ c ∈ REQUIRED_COLUMNS ∧ c ∉ headers) ∧
    (missingColumns headers = [] ↔ ∀ c ∈ REQUIRED_COLUMNS, c ∈ headers) ∧
    (∀ rows, missingColumns headers ≠ [] →
      loadData headers rows
        = Except.error (LoadError.schemaError (missingColumns headers))) ∧
    (∀ rows, missingColumns headers = [] →
      loadData headers rows = Except.ok (normalizeAll 0 rows)) ∧
    missingColumns (REQUIRED_COLUMNS.filter (fun c => c ≠ "Subscription Value"))
      = ["Subscription Value"] := by
  refine ⟨List.filter_sublist REQUIRED_COLUMNS, ?_, ?_, ?_, ?_, by decide⟩
  · intro c
    simp [missingColumns, List.mem_filter, List.elem_iff]
  · simp [missingColumns, List.filter_eq_nil_iff, List.elem_iff]
  · intro rows hne
    have hlen : 0 < (missingColumns headers).length := List.length_pos.mpr hne
    simp [loadData, hlen]
  · intro rows he
    simp [loadData, he, processedData, processAll_ok]

/-- Claim C7: normalization parses the integer fields with the base-10
integer parser and the real fields with the float parser; an unparsable
or empty cell yields `0`; a parsed value — negative included — is kept
as parsed (no clamping). -/
theorem normalize_numeric_fields (i : ℕ) (row : RawRow) :
    (normalizeRow i row).clicks = jsInt (jsParseInt (rowGet row "Clicks")) ∧
    (normalizeRow i row).installs = jsInt (jsParseInt (rowGet row "Installs")) ∧
    (normalizeRow i row).trials = jsInt (jsParseInt (rowGet row "Trials")) ∧
    (normalizeRow i row).subscriptions
      = jsInt (jsParseInt (rowGet row "Subscriptions")) ∧
    (normalizeRow i row).cost = jsNum (jsParseFloat (rowGet row "Cost")) ∧
    (normalizeRow i row).avgCpc = jsNum (jsParseFloat (rowGet row "Avg. CPC")) ∧
    (normalizeRow i row).subscriptionValue
      = jsNum (jsParseFloat (rowGet row "Subscription Value")) ∧
    (∀ s, jsParseInt s = none → jsInt (jsParseInt s) = 0) ∧
    (∀ s, jsParseFloat s = none → jsNum (jsParseFloat s) = 0) ∧
    (∀ s v, jsParseInt s = some v → jsInt (jsParseInt s) = v) ∧
    (∀ s q, jsParseFloat s = some q → jsNum (jsParseFloat s) = q) ∧
    jsParseInt "" = none ∧
    jsParseFloat "" = none ∧
    jsParseInt "-5" = some (-5) ∧
    jsParseFloat "-2.5" = some (-(5 / 2)) := by
  refine ⟨rfl, rfl, rfl, rfl, rfl, rfl, rfl, ?_, ?_, ?_, ?_,
    by decide, by decide, by decide, by with_unfolding_all decide⟩
  · intro s hs; simp [jsInt, hs]
  · intro s hs; simp [jsNum, hs]
  · intro s v hs; simp [jsInt, hs]
  · intro s q hs; simp [jsNum, hs]

/-- Claim C9: per-row normalization is total, so the batch always
succeeds and the row-level error branch is unreachable: `processedData`
returns `ok` with one record per row.  (The operations inside the
source's `try` — `parseInt`, `parseFloat`, `new Date`, property
reads — are total in JavaScript and are embedded as total functions.) -/
theorem normalization_total (rows : List RawRow) :
    processedData rows = Except.ok (normalizeAll 0 rows) ∧
    (normalizeAll 0 rows).length = rows.length := by
  exact ⟨processAll_ok rows 0, normalizeAll_length rows 0⟩

/-- Claim C10: a numeric cell is truncated at its longest numeric
prefix rather than discarded: `"12abc"` normalizes to `12` on a real
field, `"3.9"` to `3` on an integer field, while a string with no
numeric prefix gives `0`. -/
theorem numeric_prefix_truncation :
    jsParseFloat "12abc" = some 12 ∧
    jsParseInt "3.9" = some 3 ∧
    (normalizeRow 0 [("Cost", "12abc")]).cost = 12 ∧
    (normalizeRow 0 [("Clicks", "3.9")]).clicks = 3 ∧
    jsParseFloat "abc" = none ∧
    jsParseInt "abc" = none ∧
    (normalizeRow 0 [("Cost", "abc")]).cost = 0 ∧
    (normalizeRow 0 [("Clicks", "abc")]).clicks = 0 := by
  with_unfolding_all decide

/-- Claim C8: for every raw dataset accepted by the Schema Validator,
serializing the normalized records and re-importing the result through
the same pipeline succeeds and yields records with numerically equal
numeric fields and dates equal at day granularity. -/
theorem export_import_roundtrip (headers : List String) (rows : List RawRow)
    (recs : List CampaignRecord) (h : loadData headers rows = Except.ok recs) :
    ∃ recs2, loadData REQUIRED_COLUMNS (recs.map serializeRecord) = Except.ok recs2 ∧
      List.Forall₂ recEquiv recs2 recs := by
  have hrecs : recs = normalizeAll 0 rows := by
    unfold loadData at h
    split_ifs at h with hm
    have hp : processedData rows = Except.ok (normalizeAll 0 rows) :=
      processAll_ok rows 0
    rw [hp] at h
    exact (Except.ok.inj h).symm
  subst hrecs
  have hm0 : missingColumns REQUIRED_COLUMNS = [] := by decide
  refine ⟨normalizeAll 0 ((normalizeAll 0 rows).map serializeRecord), ?_, ?_⟩
  · unfold loadData
    rw [hm0]
    simp [processedData, processAll_ok]
  · exact roundtrip_all _ (normalizeAll_fieldOK rows 0) 0

/-- Witness for C8 on a concrete one-row dataset with every required
column present. -/
theorem export_import_roundtrip_inst :
    ∃ recs2, loadData REQUIRED_COLUMNS ((normalizeAll 0 sampleRows).map serializeRecord)
        = Except.ok recs2 ∧
      List.Forall₂ recEquiv recs2 (normalizeAll 0 sampleRows) :=
  export_import_roundtrip REQUIRED_COLUMNS sampleRows (normalizeAll 0 sampleRows)
    (by
      have hm0 : missingColumns REQUIRED_COLUMNS = [] := by decide
      unfold loadData
      rw [hm0]
      simp [processedData, processAll_ok])

end SubCalc
